import Mathlib

/-!
Shallow embedding of the image-normalization and result-ranking core of the
VR/AR detection repository (sketch-classifier service `utils.py` / `model.py`
and the YOLO service's base64 decoding), together with theorems settling the
specification claims.

Numeric samples are modelled as rationals (`ℚ`), numpy arrays as a flat
row-major data list plus a shape list, and the drawing canvas as a function
from (row, column) to intensity.
-/

namespace SketchVR

/-- Error taxonomy of the spec (§7): decode, shape and validation failures. -/
inductive PErr where
  | decodeError : PErr
  | shapeError : PErr
  | validationError : PErr
deriving DecidableEq

instance exceptDecEq {ε α : Type} [DecidableEq ε] [DecidableEq α] :
    DecidableEq (Except ε α) := fun x y =>
  match x, y with
  | .error a, .error b =>
      if h : a = b then .isTrue (congrArg Except.error h)
      else .isFalse (fun hh => h (Except.error.inj hh))
  | .ok a, .ok b =>
      if h : a = b then .isTrue (congrArg Except.ok h)
      else .isFalse (fun hh => h (Except.ok.inj hh))
  | .error _, .ok _ => .isFalse (fun hh => Except.noConfusion hh)
  | .ok _, .error _ => .isFalse (fun hh => Except.noConfusion hh)

/-- A numpy `ndarray` in row-major order: a shape and a flat data list.
`wf` (data length = product of dims) is stated as a hypothesis where needed. -/
structure NDArray where
  shape : List ℕ
  data : List ℚ
deriving DecidableEq

/-- Well-formedness of an `NDArray`: the flat data has exactly as many
entries as the shape dictates. -/
def NDArray.wf (a : NDArray) : Prop :=
  a.data.length = a.shape.prod

/-- Models numpy's `arr.max()` on the flat data (only used on non-empty data,
matching the source in which the array is never empty at this point). -/
def listMax : List ℚ → ℚ
  | [] => 0
  | x :: xs => xs.foldl max x

/-- Python `int()` on a float: truncation toward zero. -/
def truncQ (q : ℚ) : ℤ :=
  if 0 ≤ q then ⌊q⌋ else ⌈q⌉

/-- Models `astype(np.uint8)` on one sample: C-style cast, truncation toward zero
followed by wraparound modulo 256. -/
def toUint8 (q : ℚ) : ℕ :=
  ((truncQ q) % 256).toNat

/-- From `model.py`, `SketchClassifier.class_names`: the fixed label list. -/
def class_names : List String :=
  ["cat", "dog", "bird", "fish", "bear", "butterfly", "bee", "spider",
   "house", "castle", "barn", "bridge", "lighthouse", "church",
   "car", "airplane", "bicycle", "boat", "train", "truck", "bus",
   "tree", "flower", "sun", "moon", "cloud", "mountain", "river",
   "apple", "banana", "book", "chair", "table", "cup", "umbrella",
   "face", "eye", "hand", "foot",
   "circle", "triangle", "square", "star", "heart",
   "sword", "axe", "hammer", "key", "crown"]

/-- One entry of the ranked result list built in `SketchClassifier.predict`
(the `confidence_percent` string is presentation-only and omitted). -/
structure Prediction where
  label : String
  confidence : ℚ
deriving DecidableEq

/-- The ordering that `np.argsort` realizes on indices of the probability
vector `v`: ascending by value, ties by ascending index (numpy's stable tie
behaviour on the small arrays at play). -/
def keyLe (v : List ℚ) (i j : ℕ) : Prop :=
  v.getD i 0 < v.getD j 0 ∨ (v.getD i 0 = v.getD j 0 ∧ i ≤ j)

instance keyLe.decRel (v : List ℚ) : DecidableRel (keyLe v) := fun _ _ => by
  unfold keyLe; infer_instance

instance keyLe.total (v : List ℚ) : IsTotal ℕ (keyLe v) := by
  constructor
  intro i j
  rcases lt_trichotomy (v.getD i 0) (v.getD j 0) with h | h | h
  · exact Or.inl (Or.inl h)
  · rcases Nat.le_total i j with hij | hij
    · exact Or.inl (Or.inr ⟨h, hij⟩)
    · exact Or.inr (Or.inr ⟨h.symm, hij⟩)
  · exact Or.inr (Or.inl h)

instance keyLe.trans (v : List ℚ) : IsTrans ℕ (keyLe v) := by
  constructor
  intro a b c hab hbc
  rcases hab with hab | ⟨hab, hab'⟩
  · rcases hbc with hbc | ⟨hbc, _⟩
    · exact Or.inl (hab.trans hbc)
    · exact Or.inl (hbc ▸ hab)
  · rcases hbc with hbc | ⟨hbc, hbc'⟩
    · exact Or.inl (hab ▸ hbc)
    · exact Or.inr ⟨hab.trans hbc, hab'.trans hbc'⟩

/-- The descending counterpart of `keyLe`: the order realized by
`np.argsort(v)[::-1]` — descending by value, ties by descending index. -/
def keyGe (v : List ℚ) (i j : ℕ) : Prop :=
  keyLe v j i

/-- Models `np.argsort(v)`: the index list `0..n-1` sorted ascending by value,
ties by ascending index. -/
def argsortAsc (v : List ℚ) : List ℕ :=
  List.insertionSort (keyLe v) (List.range v.length)

/-- Models `np.argsort(v)[::-1]`: the descending ranking of indices. -/
def argsortDesc (v : List ℚ) : List ℕ :=
  (argsortAsc v).reverse

/-- Python list slicing `l[:k]` for an `int` bound `k`: nonnegative `k`
takes the first `k` items, negative `k` drops the last `-k` items. -/
def pyTake {α : Type} (l : List α) (k : ℤ) : List α :=
  if 0 ≤ k then l.take k.toNat else l.take (l.length - (-k).toNat)

/-- Models `top_indices = np.argsort(predictions[0])[::-1][:top_k]`. -/
def topIndices (v : List ℚ) (k : ℤ) : List ℕ :=
  pyTake (argsortDesc v) k

/-- The loop in `SketchClassifier.predict` that turns the top indices into
result entries via `class_names` and the probabilities. -/
def rankResults (v : List ℚ) (k : ℤ) : List Prediction :=
  (topIndices v k).map (fun i => ⟨class_names.getD i "", v.getD i 0⟩)

/-- From `model.py`, `SketchClassifier.predict`: validates the image shape
(`(1, 28, 28, 1)` or `ValueError`), then ranks the externally produced
probability vector `v` (from `self.model.predict`, an external collaborator,
taken here as a parameter) and returns the top-k entries. -/
def SketchClassifier.predict (v : List ℚ) (image : NDArray) (top_k : ℤ) :
    Except PErr (List Prediction) :=
  if image.shape ≠ [1, 28, 28, 1] then .error .validationError
  else .ok (rankResults v top_k)

/-- The declared default of the `top_k` parameter, `3`, shared by
`SketchClassifier.predict` and `main.py`'s `PredictionRequest.top_k`. -/
def default_top_k : ℤ := 3

/-- The call of `SketchClassifier.predict` without an explicit `top_k`. -/
def SketchClassifier.predictDefault (v : List ℚ) (image : NDArray) :
    Except PErr (List Prediction) :=
  SketchClassifier.predict v image default_top_k

/-- Resampling a `h × w` pixel grid to the fixed `28 × 28` target, flat
row-major output. Modelled from the spec: PIL's `Image.resize` with the
LANCZOS filter is external library code; it is modelled here as coordinate
resampling (nearest neighbour). The theorems below rely only on the output
grid being `28 × 28` and on constant images resampling to the same constant,
both of which hold for PIL's resize as well. -/
def resize28 (h w : ℕ) (pix : ℕ → ℕ → ℕ) : List ℕ :=
  (List.range (28 * 28)).map (fun n => pix (n / 28 * h / 28) (n % 28 * w / 28))

/-- Models `arr.reshape(1, 28, 28, 1)`: succeeds exactly when the flat data has
`784` entries, as numpy's reshape does. -/
def reshape4 (data : List ℚ) : Except PErr NDArray :=
  if data.length = 1 * 28 * 28 * 1 then .ok ⟨[1, 28, 28, 1], data⟩
  else .error .shapeError

/-- Models `image_array[0]` on a batched array: drop the leading dimension and keep
the first `shape.tail.prod` samples (the batch's first image). -/
def batchFirst (a : NDArray) : NDArray :=
  ⟨a.shape.drop 1, a.data.take (a.shape.drop 1).prod⟩

/-- The luma reduction `0.299*R + 0.587*G + 0.114*B` applied to a flat
row-major `(h, w, 3)` data list, one output sample per channel triple. -/
def lumaTriples : List ℚ → List ℚ
  | r :: g :: b :: rest =>
      (299 / 1000 * r + 587 / 1000 * g + 114 / 1000 * b) :: lumaTriples rest
  | [] => []
  | [_] => []
  | [_, _] => []

/-- The 3-D branch of `preprocess_image_from_array`: `shape[2] == 3` is
reduced by luma weighting, `shape[2] == 1` is squeezed away, anything else
is left as is (and will fail the 2-D check). -/
def toGray (a : NDArray) : NDArray :=
  if a.shape.getD 2 0 = 3 then
    ⟨[a.shape.getD 0 0, a.shape.getD 1 0], lumaTriples a.data⟩
  else if a.shape.getD 2 0 = 1 then
    ⟨[a.shape.getD 0 0, a.shape.getD 1 0], a.data⟩
  else a

/-- Reading sample `(r, c)` of a 2-D array with row length `w`. -/
def at2 (a : NDArray) (r c : ℕ) : ℚ :=
  a.data.getD (r * a.shape.getD 1 0 + c) 0

/-- The resize step of `preprocess_image_from_array`:
`Image.fromarray(arr.astype(np.uint8))` then resize to `28 × 28` and back to
a float array. -/
def resizeArr (a : NDArray) : NDArray :=
  ⟨[28, 28],
   (resize28 (a.shape.getD 0 0) (a.shape.getD 1 0)
      (fun r c => toUint8 (at2 a r c))).map (fun (p : ℕ) => (p : ℚ))⟩

/-- From `utils.py`, `preprocess_image_from_array`: reduce to 2-D (first batch
entry, luma / squeeze on channels), fail when still not 2-D, resize when not
already `28 × 28`, divide by 255 when the maximum exceeds 1, reshape. -/
def preprocess_image_from_array (a0 : NDArray) : Except PErr NDArray :=
  let a1 := if a0.shape.length = 4 then batchFirst a0 else a0
  let a2 := if a1.shape.length = 3 then toGray a1 else a1
  if a2.shape.length ≠ 2 then .error .shapeError
  else
    let a3 := if a2.shape ≠ [28, 28] then resizeArr a2 else a2
    let a4 := if 1 < listMax a3.data then ⟨a3.shape, a3.data.map (· / 255)⟩ else a3
    reshape4 a4.data

/-- A decoded 8-bit grayscale PIL image (the output of
`Image.open(...).convert('L')`; the byte/base64 decoding itself is the
external Image Decoder collaborator). Pixel values are expected `< 256`,
stated as a hypothesis where needed. -/
structure GrayImage where
  height : ℕ
  width : ℕ
  pix : ℕ → ℕ → ℕ

/-- From `utils.py`, `preprocess_image_from_bytes` after the external decode:
resize the grayscale image to `28 × 28`, convert to a float array, divide by
255 unconditionally, reshape to `(1, 28, 28, 1)`. -/
def preprocess_image_from_bytes (img : GrayImage) : Except PErr NDArray :=
  reshape4 ((resize28 img.height img.width img.pix).map (fun (p : ℕ) => (p : ℚ) / 255))

/-- The drawing canvas `np.zeros((canvas_size, canvas_size), dtype=np.uint8)`
modelled as a function from (row, column) to intensity. -/
def Canvas : Type := ℕ → ℕ → ℕ

/-- The all-zero blank canvas. -/
def zeroCanvas : Canvas := fun _ _ => 0

/-- Models the write `canvas[row, col] = v`. -/
def setPix (c : Canvas) (row col : ℕ) (v : ℕ) : Canvas :=
  fun r k => if r = row ∧ k = col then v else c r k

/-- Python `int()` composed with `Nat` coercion, used for the canvas index
`canvas[int(y), int(x)]` (the bounds guard makes the argument nonnegative,
where `int()` is the floor). -/
def truncToNat (q : ℚ) : ℕ :=
  (truncQ q).toNat

/-- From `utils.py`, `_interpolate_points`: `num_points + 1` samples of the linear
interpolation `p(t) = p1 + t * (p2 - p1)` with `t = i / num_points`. -/
def interpolate_points (x1 y1 x2 y2 : ℚ) (num_points : ℕ) : List (ℚ × ℚ) :=
  (List.range (num_points + 1)).map (fun (i : ℕ) =>
    (x1 + ((i : ℚ) / (num_points : ℚ)) * (x2 - x1),
     y1 + ((i : ℚ) / (num_points : ℚ)) * (y2 - y1)))

/-- The declared default of `_interpolate_points`' `num_points`, `10`,
which is what `preprocess_stroke_data` uses. -/
def default_num_points : ℕ := 10

/-- The guard `0 <= x < canvas_size and 0 <= y < canvas_size`. -/
def inCanvas (size : ℕ) (p : ℚ × ℚ) : Prop :=
  0 ≤ p.1 ∧ p.1 < (size : ℚ) ∧ 0 ≤ p.2 ∧ p.2 < (size : ℚ)

instance inCanvas.dec (size : ℕ) (p : ℚ × ℚ) : Decidable (inCanvas size p) := by
  unfold inCanvas; infer_instance

/-- The body of the marking loop: an interpolated point inside the canvas
bounds sets `canvas[int(y), int(x)] = 255`; a point outside is skipped. -/
def drawPoint (size : ℕ) (c : Canvas) (p : ℚ × ℚ) : Canvas :=
  if inCanvas size p then setPix c (truncToNat p.2) (truncToNat p.1) 255 else c

/-- Drawing one segment: mark every interpolated point between the two
endpoints (with the default `num_points = 10`). -/
def drawSegment (size : ℕ) (c : Canvas) (x1 y1 x2 y2 : ℚ) : Canvas :=
  (interpolate_points x1 y1 x2 y2 default_num_points).foldl (drawPoint size) c

/-- Drawing one stroke: walk consecutive point pairs and draw each segment. -/
def drawStroke (size : ℕ) (c : Canvas) (s : List (ℚ × ℚ)) : Canvas :=
  (s.zip s.tail).foldl (fun acc pq => drawSegment size acc pq.1.1 pq.1.2 pq.2.1 pq.2.2) c

/-- The canvas-drawing loop of `preprocess_stroke_data`: strokes with fewer
than 2 points are skipped (`continue`), every other stroke is drawn. -/
def drawStrokes (size : ℕ) (strokes : List (List (ℚ × ℚ))) : Canvas :=
  strokes.foldl (fun c s => if s.length < 2 then c else drawStroke size c s) zeroCanvas

/-- The declared default of `preprocess_stroke_data`'s `canvas_size`, `256`. -/
def default_canvas_size : ℕ := 256

/-- From `utils.py`, `preprocess_stroke_data`: rasterize the strokes onto a blank
`canvas_size × canvas_size` canvas, resize to `28 × 28`, divide by 255,
reshape to `(1, 28, 28, 1)`. -/
def preprocess_stroke_data (strokes : List (List (ℚ × ℚ))) (canvas_size : ℕ) :
    Except PErr NDArray :=
  let canvas := drawStrokes canvas_size strokes
  reshape4 ((resize28 canvas_size canvas_size canvas).map (fun (p : ℕ) => (p : ℚ) / 255))

/-- Models `',' in s`, over the character list of the string. -/
def containsComma : List Char → Bool
  | [] => false
  | c :: cs => c = ',' || containsComma cs

/-- Models `s.split(',', 1)[1]`: everything after the first comma. -/
def dropToComma (s : List Char) : List Char :=
  (s.dropWhile (fun c => c ≠ ',')).drop 1

/-- Models `s.startswith(p)` over character lists. -/
def leadsWith : List Char → List Char → Bool
  | [], _ => true
  | _ :: _, [] => false
  | p :: ps, c :: cs => p = c && leadsWith ps cs

/-- The data-URI stripping of `utils.py` `preprocess_image_from_base64`:
strip up to and including the first comma only when the string contains a
comma and starts with `data:`. -/
def stripDataUriSketch (s : List Char) : List Char :=
  if containsComma s && leadsWith ("data:".toList) s then dropToComma s else s

/-- The stripping of `detector.py` `YOLODetector.decode_base64_image`:
strip up to and including the first comma whenever the string contains a
comma, with no check for a `data:` scheme. -/
def stripDataUriYolo (s : List Char) : List Char :=
  if containsComma s then dropToComma s else s

lemma foldl_max_replicate (x a : ℚ) :
    ∀ n, (List.replicate n x).foldl max a = if n = 0 then a else max a x := by
  intro n
  induction n generalizing a with
  | zero => simp
  | succ m ih =>
      by_cases hm : m = 0 <;>
        simp [List.replicate_succ, List.foldl_cons, ih, hm, max_assoc, max_self]

lemma listMax_replicate (n : ℕ) (x : ℚ) (hn : n ≠ 0) :
    listMax (List.replicate n x) = x := by
  cases n with
  | zero => exact absurd rfl hn
  | succ m =>
      by_cases hm : m = 0 <;>
        simp [List.replicate_succ, listMax, foldl_max_replicate, hm, max_self]

lemma toUint8_of_unit (q : ℚ) (h0 : 0 ≤ q) (h1 : q < 1) : toUint8 q = 0 := by
  have hf : ⌊q⌋ = 0 := by
    rw [Int.floor_eq_zero_iff]
    exact ⟨h0, h1⟩
  simp [toUint8, truncQ, if_pos h0, hf]

set_option maxRecDepth 10000 in
/-- C4 (code bug): the 28×28 all-`300` float array is accepted by
`preprocess_image_from_array`, which divides by 255 (since the maximum
exceeds 1) and returns the constant sample `300/255 ≈ 1.176 > 1` — outside
the `[0,1]` range promised by the claim and by the function's docstring. -/
theorem from_array_escapes_unit_interval :
    preprocess_image_from_array ⟨[28, 28], List.replicate 784 300⟩ =
      .ok ⟨[1, 28, 28, 1], List.replicate 784 ((300 : ℚ) / 255)⟩ ∧
    ¬((300 : ℚ) / 255 ≤ 1) := by
  constructor
  · have hmax : listMax (List.replicate 784 (300 : ℚ)) = 300 :=
      listMax_replicate 784 300 (by norm_num)
    simp only [preprocess_image_from_array, reshape4]
    norm_num [hmax, List.map_replicate]
  · norm_num

/-- C1 (counterexample): on the tied probability vector `[1/2, 1/2]` with
`K = 2`, the code ranks index 1 (`"dog"`) before index 0 (`"cat"`), because
`argsort(...)[::-1]` reverses the stable ascending order; the claim's
stable tie-breaking by ascending original index would give `"cat"` first. -/
theorem rank_tie_order_counterexample :
    rankResults [mkRat 1 2, mkRat 1 2] 2 =
      [⟨"dog", mkRat 1 2⟩, ⟨"cat", mkRat 1 2⟩] ∧
    class_names.getD 0 "" = "cat" ∧ class_names.getD 1 "" = "dog" ∧
    rankResults [mkRat 1 2, mkRat 1 2] 2 ≠
      [⟨"cat", mkRat 1 2⟩, ⟨"dog", mkRat 1 2⟩] := by
  decide

/-- C9 (counterexample): `SketchClassifier.predict` performs no range check
on `top_k`. With `top_k = 0` (out of range per the claim) it succeeds with
an empty result instead of failing with a validation error, and with
`top_k = -1` it succeeds with all but the last ranked entry (Python slice
semantics). -/
theorem topk_no_validation_counterexample :
    SketchClassifier.predict [mkRat 1 10, mkRat 7 10, mkRat 1 5]
        ⟨[1, 28, 28, 1], List.replicate 784 0⟩ 0 = .ok [] ∧
    SketchClassifier.predict [mkRat 1 10, mkRat 7 10, mkRat 1 5]
        ⟨[1, 28, 28, 1], List.replicate 784 0⟩ (-1) =
      .ok [⟨"dog", mkRat 7 10⟩, ⟨"bird", mkRat 1 5⟩] := by
  refine ⟨by decide, by decide⟩

set_option maxRecDepth 10000 in
/-- C3 (counterexample): the 1×1 raster holding the single already-normalized
sample `7/10` is accepted, but normalizing does not leave its values
unchanged: the resize path casts to `uint8` (truncating `7/10` to `0`) and
resamples to 784 zero samples. -/
theorem normalize_not_value_preserving_counterexample :
    (0 ≤ (7 / 10 : ℚ) ∧ (7 / 10 : ℚ) ≤ 1) ∧
    preprocess_image_from_array ⟨[1, 1], [7/10]⟩ =
      .ok ⟨[1, 28, 28, 1], List.replicate 784 0⟩ ∧
    (List.replicate 784 (0 : ℚ)) ≠ [7/10] := by
  refine ⟨by norm_num, ?_, by simp⟩
  have hpix : ∀ r c, toUint8 (at2 ⟨[1, 1], [7/10]⟩ r c) = 0 := by
    intro r c
    show toUint8 ([(7/10 : ℚ)].getD (r * 1 + c) 0) = 0
    rcases Nat.eq_zero_or_pos (r * 1 + c) with h | h
    · rw [h]
      exact toUint8_of_unit _ (by norm_num) (by norm_num)
    · rw [List.getD_eq_default _ _ (by simp only [List.length_singleton]; omega)]
      exact toUint8_of_unit _ le_rfl (by norm_num)
  have hresQ : ((resize28 1 1 (fun r c => toUint8 (at2 ⟨[1, 1], [7/10]⟩ r c))).map
      (fun (p : ℕ) => (p : ℚ))) = List.replicate 784 (0 : ℚ) := by
    rw [List.eq_replicate_iff]
    constructor
    · simp [resize28]
    · intro b hb
      rcases List.mem_map.mp hb with ⟨q, hq, hqb⟩
      rcases List.mem_map.mp hq with ⟨n, _, hn⟩
      rw [← hqb, ← hn]
      have h0 := hpix (n / 28 * 1 / 28) (n % 28 * 1 / 28)
      simp only [h0]
      norm_num
  have hmaxQ : listMax (List.replicate 784 (0 : ℚ)) = 0 :=
    listMax_replicate 784 0 (by norm_num)
  simp +decide only [preprocess_image_from_array, resizeArr, reshape4, if_true, if_false]
  rw [show ([1, 1] : List ℕ).getD 0 0 = 1 from rfl,
    show ([1, 1] : List ℕ).getD 1 0 = 1 from rfl, hresQ, hmaxQ]
  norm_num

/-- C7 (counterexample): the string `"abc,def"` contains no `scheme:` part at
all (no colon), hence no data-URI prefix, yet the YOLO service's decoder
strips everything up to its first comma instead of decoding it unchanged. -/
theorem strip_any_comma_counterexample :
    (':' ∉ "abc,def".toList) ∧
    stripDataUriYolo ("abc,def".toList) = "def".toList ∧
    stripDataUriYolo ("abc,def".toList) ≠ "abc,def".toList := by
  decide

lemma foldl_skip_short (size : ℕ) :
    ∀ (strokes : List (List (ℚ × ℚ))) (c : Canvas),
      (∀ s ∈ strokes, s.length < 2) →
      strokes.foldl (fun c s => if s.length < 2 then c else drawStroke size c s) c = c := by
  intro strokes
  induction strokes with
  | nil => intro c _; rfl
  | cons s t ih =>
      intro c h
      rw [List.foldl_cons, if_pos (h s (List.mem_cons_self s t))]
      exact ih c (fun s' hs' => h s' (List.mem_cons_of_mem s hs'))

/-- C5: a stroke with fewer than 2 points contributes nothing to the canvas
(removing it from the drawing leaves the drawn canvas unchanged), and a
drawing made only of such strokes — including the empty drawing — leaves the
canvas all zeros before normalization. -/
theorem short_strokes_contribute_nothing :
    (∀ (size : ℕ) (pre post : List (List (ℚ × ℚ))) (s : List (ℚ × ℚ)),
      s.length < 2 →
      drawStrokes size (pre ++ s :: post) = drawStrokes size (pre ++ post)) ∧
    (∀ (size : ℕ) (strokes : List (List (ℚ × ℚ))),
      (∀ s ∈ strokes, s.length < 2) →
      drawStrokes size strokes = zeroCanvas) := by
  constructor
  · intro size pre post s hs
    unfold drawStrokes
    rw [List.foldl_append, List.foldl_append, List.foldl_cons, if_pos hs]
  · intro size strokes h
    exact foldl_skip_short size strokes zeroCanvas h

/-- Witness for C5: the concrete one-point-stroke drawing `[[(3, 4)]]`. -/
theorem short_strokes_contribute_nothing_witness :
    (([((3 : ℚ), (4 : ℚ))].length < 2) ∧
      drawStrokes 28 ([] ++ [((3 : ℚ), (4 : ℚ))] :: []) = drawStrokes 28 ([] ++ [])) ∧
    ((∀ s ∈ [[((3 : ℚ), (4 : ℚ))]], s.length < 2) ∧
      drawStrokes 28 [[((3 : ℚ), (4 : ℚ))]] = zeroCanvas) :=
  ⟨⟨by decide, short_strokes_contribute_nothing.1 28 [] [] _ (by decide)⟩,
   ⟨by decide, short_strokes_contribute_nothing.2 28 _ (by decide)⟩⟩

lemma foldl_drawPoint (size : ℕ) :
    ∀ (l : List (ℚ × ℚ)) (c : Canvas) (r k : ℕ),
      (l.foldl (drawPoint size) c) r k =
        if ∃ p ∈ l, inCanvas size p ∧ (truncToNat p.2, truncToNat p.1) = (r, k)
        then 255 else c r k := by
  intro l
  induction l with
  | nil => intro c r k; simp
  | cons p t ih =>
      intro c r k
      rw [List.foldl_cons, ih]
      by_cases hmem : ∃ q ∈ t, inCanvas size q ∧ (truncToNat q.2, truncToNat q.1) = (r, k)
      · rcases hmem with ⟨q, hqt, hq⟩
        rw [if_pos ⟨q, hqt, hq⟩, if_pos ⟨q, List.mem_cons_of_mem p hqt, hq⟩]
      · rw [if_neg hmem]
        unfold drawPoint setPix
        by_cases hin : inCanvas size p
        · rw [if_pos hin]
          by_cases hcell : r = truncToNat p.2 ∧ k = truncToNat p.1
          · rw [if_pos hcell,
              if_pos ⟨p, List.mem_cons_self p t, hin, by rw [hcell.1, hcell.2]⟩]
          · rw [if_neg hcell, if_neg ?_]
            rintro ⟨q, hq, hqin, hqcell⟩
            rcases List.mem_cons.mp hq with rfl | hqt
            · exact hcell ⟨(Prod.mk.injEq _ _ _ _ ▸ hqcell).1.symm,
                (Prod.mk.injEq _ _ _ _ ▸ hqcell).2.symm⟩
            · exact hmem ⟨q, hqt, hqin, hqcell⟩
        · rw [if_neg hin, if_neg ?_]
          rintro ⟨q, hq, hqin, hqcell⟩
          rcases List.mem_cons.mp hq with rfl | hqt
          · exact hin hqin
          · exact hmem ⟨q, hqt, hqin, hqcell⟩

lemma interpolate_points_getD (x1 y1 x2 y2 : ℚ) (n i : ℕ) (hi : i ≤ n) :
    (interpolate_points x1 y1 x2 y2 n).getD i (0, 0) =
      (x1 + ((i : ℚ) / (n : ℚ)) * (x2 - x1),
       y1 + ((i : ℚ) / (n : ℚ)) * (y2 - y1)) := by
  unfold interpolate_points
  rw [List.getD_eq_getElem?_getD, List.getElem?_map, List.getElem?_range (by omega)]
  rfl

/-- C6: for each consecutive point pair the rasterizer computes exactly
`num_points + 1` interpolated points `p(t) = p1 + t*(p2 - p1)`, with `t`
running over `num_points + 1` evenly spaced values from 0 to 1 inclusive
(both endpoints included), and marks exactly the in-bounds interpolated
points with intensity 255, leaving every other canvas cell unchanged. -/
theorem interpolation_and_marking (x1 y1 x2 y2 : ℚ) (n : ℕ) (hn : 0 < n) :
    (interpolate_points x1 y1 x2 y2 n).length = n + 1 ∧
    (∀ i, i ≤ n → (interpolate_points x1 y1 x2 y2 n).getD i (0, 0) =
      (x1 + ((i : ℚ) / (n : ℚ)) * (x2 - x1),
       y1 + ((i : ℚ) / (n : ℚ)) * (y2 - y1))) ∧
    (interpolate_points x1 y1 x2 y2 n).getD 0 (0, 0) = (x1, y1) ∧
    (interpolate_points x1 y1 x2 y2 n).getD n (0, 0) = (x2, y2) ∧
    (∀ i, i < n →
      (((i + 1 : ℕ) : ℚ) / (n : ℚ)) - ((i : ℚ) / (n : ℚ)) = 1 / (n : ℚ)) ∧
    (∀ (size : ℕ) (c : Canvas) (r k : ℕ),
      drawSegment size c x1 y1 x2 y2 r k =
        if ∃ p ∈ interpolate_points x1 y1 x2 y2 default_num_points,
            inCanvas size p ∧ (truncToNat p.2, truncToNat p.1) = (r, k)
        then 255 else c r k) := by
  have hne : (n : ℚ) ≠ 0 := Nat.cast_ne_zero.mpr hn.ne'
  refine ⟨?_, interpolate_points_getD x1 y1 x2 y2 n, ?_, ?_, ?_, ?_⟩
  · simp [interpolate_points]
  · rw [interpolate_points_getD x1 y1 x2 y2 n 0 (Nat.zero_le n)]
    simp
  · rw [interpolate_points_getD x1 y1 x2 y2 n n le_rfl]
    rw [Prod.mk.injEq]
    constructor <;> field_simp
  · intro i _
    field_simp
  · intro size c r k
    unfold drawSegment
    exact foldl_drawPoint size _ c r k

/-- Witness for C6: the concrete segment from `(0, 0)` to `(27, 27)` with the
default `num_points = 10`. -/
theorem interpolation_and_marking_witness :
    0 < default_num_points ∧
    (interpolate_points 0 0 27 27 default_num_points).length =
      default_num_points + 1 :=
  ⟨by decide, (interpolation_and_marking 0 0 27 27 default_num_points (by decide)).1⟩

lemma containsComma_of_append (a b : List Char) :
    containsComma (a ++ ',' :: b) = true := by
  induction a with
  | nil => simp [containsComma]
  | cons c t ih => simp [containsComma, ih]

lemma containsComma_eq_false (s : List Char) (h : ',' ∉ s) :
    containsComma s = false := by
  induction s with
  | nil => rfl
  | cons c t ih =>
      have hc : c ≠ ',' := fun hc => h (hc ▸ List.mem_cons_self c t)
      simp [containsComma, hc, ih (fun ht => h (List.mem_cons_of_mem c ht))]

lemma dropToComma_append (a b : List Char) (h : ',' ∉ a) :
    dropToComma (a ++ ',' :: b) = b := by
  unfold dropToComma
  induction a with
  | nil => simp
  | cons c t ih =>
      have hc : c ≠ ',' := fun hc => h (hc ▸ List.mem_cons_self c t)
      simp only [List.cons_append, List.dropWhile_cons]
      rw [if_pos (by simpa using hc)]
      exact ih (fun ht => h (List.mem_cons_of_mem c ht))

/-- C7 (amended): the sketch service strips everything up to and including
the first comma exactly when the string contains a comma **and** starts with
`data:`; the YOLO service strips on the first comma whenever the string
contains a comma at all; both leave comma-free strings unchanged. -/
theorem strip_data_uri_amended :
    (∀ (a b : List Char), ',' ∉ a →
      stripDataUriYolo (a ++ ',' :: b) = b ∧
      stripDataUriSketch (a ++ ',' :: b) =
        (if leadsWith ("data:".toList) (a ++ ',' :: b) = true then b
         else a ++ ',' :: b)) ∧
    (∀ s : List Char, ',' ∉ s →
      stripDataUriYolo s = s ∧ stripDataUriSketch s = s) := by
  constructor
  · intro a b ha
    constructor
    · rw [stripDataUriYolo, if_pos (containsComma_of_append a b),
        dropToComma_append a b ha]
    · rw [stripDataUriSketch, containsComma_of_append a b, Bool.true_and]
      by_cases hl : leadsWith ("data:".toList) (a ++ ',' :: b) = true
      · rw [if_pos hl, if_pos hl, dropToComma_append a b ha]
      · rw [if_neg hl, if_neg hl]
  · intro s hs
    constructor
    · rw [stripDataUriYolo, if_neg (by simp [containsComma_eq_false s hs])]
    · rw [stripDataUriSketch, containsComma_eq_false s hs, Bool.false_and]
      simp

/-- Witness for C7 (amended): the data-URI string
`"data:x,payload"` and the comma-free string `"plain"`. -/
theorem strip_data_uri_amended_witness :
    ((',' ∉ "data:x".toList) ∧
      stripDataUriYolo ("data:x".toList ++ ',' :: "payload".toList) =
        "payload".toList ∧
      stripDataUriSketch ("data:x".toList ++ ',' :: "payload".toList) =
        (if leadsWith ("data:".toList)
            ("data:x".toList ++ ',' :: "payload".toList) = true
         then "payload".toList
         else "data:x".toList ++ ',' :: "payload".toList)) ∧
    ((',' ∉ "plain".toList) ∧ stripDataUriYolo ("plain".toList) = "plain".toList ∧
      stripDataUriSketch ("plain".toList) = "plain".toList) :=
  ⟨⟨by decide, (strip_data_uri_amended.1 _ _ (by decide)).1,
    (strip_data_uri_amended.1 _ _ (by decide)).2⟩,
   ⟨by decide, (strip_data_uri_amended.2 _ (by decide)).1,
    (strip_data_uri_amended.2 _ (by decide)).2⟩⟩

lemma argsortAsc_sorted (v : List ℚ) : (argsortAsc v).Sorted (keyLe v) :=
  List.sorted_insertionSort (keyLe v) (List.range v.length)

lemma argsortAsc_perm (v : List ℚ) : List.Perm (argsortAsc v) (List.range v.length) :=
  List.perm_insertionSort (keyLe v) (List.range v.length)

lemma argsortDesc_sorted (v : List ℚ) : (argsortDesc v).Sorted (keyGe v) :=
  List.pairwise_reverse.mpr (argsortAsc_sorted v)

lemma argsortDesc_length (v : List ℚ) : (argsortDesc v).length = v.length := by
  simp [argsortDesc, argsortAsc]

lemma topIndices_eq_take (v : List ℚ) (k : ℕ) :
    topIndices v (k : ℤ) = (argsortDesc v).take k := by
  simp [topIndices, pyTake]

/-- C1 (amended): the ranking returned by `SketchClassifier.predict` has
length `min K n`, is sorted descending by confidence with ties broken by
**descending** original index (the reverse of numpy\'s stable ascending
argsort — not ascending index order as the claim states), consists of
distinct valid indices, every selected index dominates every unselected one
(so the selected entries are indeed K highest-probability ones), and the
result pairs each selected index with its label and confidence. -/
theorem ranking_sorted_desc (v : List ℚ) (k : ℕ) :
    (rankResults v (k : ℤ)).length = min k v.length ∧
    (topIndices v (k : ℤ)).Sorted (keyGe v) ∧
    (∀ i ∈ topIndices v (k : ℤ), i < v.length) ∧
    (topIndices v (k : ℤ)).Nodup ∧
    (∀ i ∈ topIndices v (k : ℤ), ∀ j, j < v.length →
      j ∉ topIndices v (k : ℤ) → keyLe v j i) ∧
    rankResults v (k : ℤ) =
      (topIndices v (k : ℤ)).map (fun i => ⟨class_names.getD i "", v.getD i 0⟩) := by
  have htake := topIndices_eq_take v k
  have hsub : List.Sublist (topIndices v (k : ℤ)) (argsortDesc v) := by
    rw [htake]; exact List.take_sublist k (argsortDesc v)
  have hmem : ∀ i ∈ topIndices v (k : ℤ), i < v.length := by
    intro i hi
    have : i ∈ argsortDesc v := hsub.mem hi
    have : i ∈ argsortAsc v := List.mem_reverse.mp this
    exact List.mem_range.mp ((argsortAsc_perm v).mem_iff.mp this)
  refine ⟨?_, ?_, hmem, ?_, ?_, rfl⟩
  · rw [rankResults, List.length_map, htake, List.length_take, argsortDesc_length]
  · exact (argsortDesc_sorted v).sublist hsub
  · refine List.Nodup.sublist hsub ?_
    rw [argsortDesc, List.nodup_reverse]
    exact (argsortAsc_perm v).nodup_iff.mpr (List.nodup_range v.length)
  · intro i hi j hj hnot
    have hjmem : j ∈ argsortDesc v := by
      rw [argsortDesc, List.mem_reverse]
      exact (argsortAsc_perm v).mem_iff.mpr (List.mem_range.mpr hj)
    have hsplit := List.take_append_drop k (argsortDesc v)
    have hjdrop : j ∈ (argsortDesc v).drop k := by
      rcases List.mem_append.mp (by rw [hsplit]; exact hjmem) with hjt | hjd
      · exact absurd (htake ▸ hjt) hnot
      · exact hjd
    have hpw : ((argsortDesc v).take k ++ (argsortDesc v).drop k).Pairwise (keyGe v) := by
      rw [hsplit]; exact argsortDesc_sorted v
    exact (List.pairwise_append.mp hpw).2.2 i (htake ▸ hi) j hjdrop

/-- C9 (amended): `top_k` defaults to 3 in both `SketchClassifier.predict`
and the request model, but the ranking operation performs **no** range
validation on it: for every `top_k` — including values below 1 — prediction
on a correctly-shaped image succeeds (no validation error); `top_k = 0`
yields the empty ranking, and the default call is `predict` at 3. -/
theorem predict_no_topk_range_check (v : List ℚ) (image : NDArray) (k : ℤ)
    (h : image.shape = [1, 28, 28, 1]) :
    SketchClassifier.predict v image k = .ok (rankResults v k) ∧
    SketchClassifier.predict v image 0 = .ok [] ∧
    default_top_k = 3 ∧
    SketchClassifier.predictDefault v image = SketchClassifier.predict v image 3 := by
  have hni : ¬ image.shape ≠ [1, 28, 28, 1] := fun hne => hne h
  refine ⟨?_, ?_, rfl, rfl⟩
  · rw [SketchClassifier.predict, if_neg hni]
  · rw [SketchClassifier.predict, if_neg hni]
    simp [rankResults, topIndices, pyTake]

/-- Witness for C9 (amended): a correctly-shaped all-zero image with the
out-of-range request `top_k = -5` still succeeds. -/
theorem predict_no_topk_range_check_witness :
    (⟨[1, 28, 28, 1], List.replicate 784 0⟩ : NDArray).shape = [1, 28, 28, 1] ∧
    SketchClassifier.predict [mkRat 1 2] ⟨[1, 28, 28, 1], List.replicate 784 0⟩ (-5) =
      .ok (rankResults [mkRat 1 2] (-5)) :=
  ⟨rfl, (predict_no_topk_range_check [mkRat 1 2]
    ⟨[1, 28, 28, 1], List.replicate 784 0⟩ (-5) rfl).1⟩

lemma foldl_max_le (c : ℚ) :
    ∀ (xs : List ℚ) (a : ℚ), a ≤ c → (∀ x ∈ xs, x ≤ c) → xs.foldl max a ≤ c := by
  intro xs
  induction xs with
  | nil => intro a ha _; exact ha
  | cons y ys ih =>
      intro a ha h
      rw [List.foldl_cons]
      exact ih (max a y) (max_le ha (h y (List.mem_cons_self y ys)))
        (fun x hx => h x (List.mem_cons_of_mem y hx))

lemma listMax_le (l : List ℚ) (c : ℚ) (hc : 0 ≤ c) (h : ∀ x ∈ l, x ≤ c) :
    listMax l ≤ c := by
  cases l with
  | nil => exact hc
  | cons x xs =>
      exact foldl_max_le c xs x (h x (List.mem_cons_self x xs))
        (fun y hy => h y (List.mem_cons_of_mem x hy))

/-- C3 (amended): for every **28×28** raster whose values already lie in
`[0,1]` (the no-resize case — resizing necessarily changes the sample list),
the normalizer leaves the sample values unchanged, and feeding the
normalized `(1, 28, 28, 1)` output back through the normalizer reproduces it
exactly (idempotence on normalized data). -/
theorem normalize_unit_values_unchanged (a : NDArray) (hshape : a.shape = [28, 28])
    (hwf : a.wf) (hvals : ∀ x ∈ a.data, 0 ≤ x ∧ x ≤ 1) :
    preprocess_image_from_array a = .ok ⟨[1, 28, 28, 1], a.data⟩ ∧
    preprocess_image_from_array ⟨[1, 28, 28, 1], a.data⟩ =
      .ok ⟨[1, 28, 28, 1], a.data⟩ := by
  obtain ⟨sh, data⟩ := a
  rw [show (⟨sh, data⟩ : NDArray).shape = sh from rfl] at hshape
  subst hshape
  rw [NDArray.wf] at hwf
  have hlen : data.length = 784 := by simpa using hwf
  have hvals' : ∀ x ∈ data, 0 ≤ x ∧ x ≤ 1 := hvals
  have hmax : ¬ (1 : ℚ) < listMax data :=
    not_lt.mpr (listMax_le data 1 zero_le_one (fun x hx => (hvals' x hx).2))
  have hb : batchFirst ⟨[1, 28, 28, 1], data⟩ = ⟨[28, 28, 1], data⟩ := by
    simp [batchFirst, List.take_of_length_le, hlen]
  have hg : toGray ⟨[28, 28, 1], data⟩ = ⟨[28, 28], data⟩ := rfl
  constructor
  · simp +decide only [preprocess_image_from_array, reshape4, if_true, if_false]
    rw [if_neg hmax, if_pos (by simpa using hlen)]
  · simp +decide only [preprocess_image_from_array, reshape4, hb, hg,
      if_true, if_false]
    rw [if_neg hmax, if_pos (by simpa using hlen)]

/-- Witness for C3 (amended): the constant all-ones 28×28 raster. -/
theorem normalize_unit_values_unchanged_witness :
    ((⟨[28, 28], List.replicate 784 1⟩ : NDArray).shape = [28, 28] ∧
      (⟨[28, 28], List.replicate 784 1⟩ : NDArray).wf ∧
      (∀ x ∈ (⟨[28, 28], List.replicate 784 1⟩ : NDArray).data, 0 ≤ x ∧ x ≤ 1)) ∧
    preprocess_image_from_array ⟨[28, 28], List.replicate 784 1⟩ =
      .ok ⟨[1, 28, 28, 1], List.replicate 784 1⟩ := by
  have hvals : ∀ x ∈ (⟨[28, 28], List.replicate 784 1⟩ : NDArray).data,
      0 ≤ x ∧ x ≤ 1 := by
    intro x hx
    rw [List.eq_of_mem_replicate hx]
    norm_num
  have hwf : (⟨[28, 28], List.replicate 784 1⟩ : NDArray).wf := by
    rw [NDArray.wf]; simp only [List.length_replicate]; rfl
  exact ⟨⟨rfl, hwf, hvals⟩,
    (normalize_unit_values_unchanged ⟨[28, 28], List.replicate 784 1⟩
      rfl hwf hvals).1⟩

/-- The shapes the normalizer can reduce to 2-D: already 2-D, or 3-D/4-D
with a trailing channel count of 1 or 3. -/
def reducibleShape (s : List ℕ) : Bool :=
  match s with
  | [_, _] => true
  | [_, _, c] => c == 1 || c == 3
  | [_, _, _, c] => c == 1 || c == 3
  | _ => false

lemma lumaTriples_length : ∀ l : List ℚ, (lumaTriples l).length = l.length / 3
  | [] => by simp [lumaTriples]
  | [_] => by simp [lumaTriples]
  | [_, _] => by simp [lumaTriples]
  | r :: g :: b :: rest => by
      have hstep : lumaTriples (r :: g :: b :: rest) =
          (299 / 1000 * r + 587 / 1000 * g + 114 / 1000 * b) :: lumaTriples rest := rfl
      rw [hstep, List.length_cons, lumaTriples_length rest,
        List.length_cons, List.length_cons, List.length_cons]
      omega

lemma preprocess_other_len (sh : List ℕ) (d : List ℚ)
    (h2 : sh.length ≠ 2) (h3 : sh.length ≠ 3) (h4 : sh.length ≠ 4) :
    preprocess_image_from_array ⟨sh, d⟩ = .error .shapeError := by
  simp only [preprocess_image_from_array]
  rw [if_neg h4, if_neg h3, if_pos h2]

lemma preprocess_squeeze (d0 d1 : ℕ) (d : List ℚ) :
    preprocess_image_from_array ⟨[d0, d1, 1], d⟩ =
      preprocess_image_from_array ⟨[d0, d1], d⟩ := rfl

lemma preprocess_luma (d0 d1 : ℕ) (d : List ℚ) :
    preprocess_image_from_array ⟨[d0, d1, 3], d⟩ =
      preprocess_image_from_array ⟨[d0, d1], lumaTriples d⟩ := rfl

lemma preprocess_batch (d0 d1 d2 d3 : ℕ) (d : List ℚ) :
    preprocess_image_from_array ⟨[d0, d1, d2, d3], d⟩ =
      preprocess_image_from_array ⟨[d1, d2, d3], d.take (d1 * (d2 * (d3 * 1)))⟩ := rfl

lemma preprocess_3d_badchannel (d0 d1 c : ℕ) (d : List ℚ)
    (h1 : c ≠ 1) (h3 : c ≠ 3) :
    preprocess_image_from_array ⟨[d0, d1, c], d⟩ = .error .shapeError := by
  simp only [preprocess_image_from_array, toGray,
    if_neg (show ¬(([d0, d1, c] : List ℕ).length = 4) by simp),
    if_pos (show ([d0, d1, c] : List ℕ).length = 3 by simp),
    if_neg (show ¬(([d0, d1, c] : List ℕ).getD 2 0 = 3) from by
      rw [show ([d0, d1, c] : List ℕ).getD 2 0 = c from rfl]; exact h3),
    if_neg (show ¬(([d0, d1, c] : List ℕ).getD 2 0 = 1) from by
      rw [show ([d0, d1, c] : List ℕ).getD 2 0 = c from rfl]; exact h1),
    if_pos (show ([d0, d1, c] : List ℕ).length ≠ 2 by simp)]

lemma preprocess_2d_eq (h w : ℕ) (d : List ℚ) :
    preprocess_image_from_array ⟨[h, w], d⟩ =
      (let a3 := if (⟨[h, w], d⟩ : NDArray).shape ≠ [28, 28]
                 then resizeArr ⟨[h, w], d⟩ else ⟨[h, w], d⟩
       let a4 := if 1 < listMax a3.data
                 then ⟨a3.shape, a3.data.map (· / 255)⟩ else a3
       reshape4 a4.data) := rfl

lemma reshape4_ok (d : List ℚ) (h : d.length = 784) :
    reshape4 d = .ok ⟨[1, 28, 28, 1], d⟩ := by
  unfold reshape4
  rw [if_pos (by simpa using h)]

lemma resizeArr_data_length (a : NDArray) : (resizeArr a).data.length = 784 := by
  simp [resizeArr, resize28]

set_option maxRecDepth 10000 in
lemma preprocess2d_ok (h w : ℕ) (d : List ℚ) (hlen : d.length = h * w) :
    ∃ r, preprocess_image_from_array ⟨[h, w], d⟩ = .ok r := by
  simp only [preprocess_2d_eq]
  by_cases hsq : ([h, w] : List ℕ) ≠ [28, 28]
  · rw [if_pos hsq]
    by_cases hc : 1 < listMax (resizeArr ⟨[h, w], d⟩).data
    · rw [if_pos hc]
      exact ⟨_, reshape4_ok _ (by
        show ((resizeArr ⟨[h, w], d⟩).data.map (· / 255)).length = 784
        rw [List.length_map, resizeArr_data_length])⟩
    · rw [if_neg hc]
      exact ⟨_, reshape4_ok _ (resizeArr_data_length _)⟩
  · rw [if_neg hsq]
    have h28 : ([h, w] : List ℕ) = [28, 28] := not_not.mp hsq
    have hlen784 : d.length = 784 := by
      injection h28 with e1 rest
      injection rest with e2 _
      rw [hlen, e1, e2]
    by_cases hc : 1 < listMax d
    · rw [if_pos hc]
      exact ⟨_, reshape4_ok _ (by
        show (d.map (· / 255)).length = 784
        rw [List.length_map, hlen784])⟩
    · rw [if_neg hc]
      exact ⟨_, reshape4_ok _ hlen784⟩

lemma preprocess3d_cases (d0 d1 c : ℕ) (d : List ℚ)
    (hwf : d.length = ([d0, d1, c] : List ℕ).prod) :
    ((c == 1 || c == 3) = true →
      ∃ r, preprocess_image_from_array ⟨[d0, d1, c], d⟩ = .ok r) ∧
    ((c == 1 || c == 3) = false →
      preprocess_image_from_array ⟨[d0, d1, c], d⟩ = .error .shapeError) := by
  constructor
  · intro h
    rcases (by simpa using h : c = 1 ∨ c = 3) with rfl | rfl
    · rw [preprocess_squeeze]
      exact preprocess2d_ok d0 d1 d (by simpa using hwf)
    · rw [preprocess_luma]
      refine preprocess2d_ok d0 d1 _ ?_
      have hl : d.length = 3 * (d0 * d1) := by
        have := hwf
        simp only [List.prod_cons, List.prod_nil] at this
        rw [this]; ring
      rw [lumaTriples_length, hl, Nat.mul_div_cancel_left _ (by norm_num)]
  · intro h
    have h' : c ≠ 1 ∧ c ≠ 3 := by simpa using h
    exact preprocess_3d_badchannel d0 d1 c d h'.1 h'.2

/-- C8: `preprocess_image_from_array` fails with the shape error exactly when
the input cannot be reduced to 2 dimensions by its rules — i.e. unless the
array is 2-D, or 3-D/4-D with a trailing channel count of 1 or 3 (an
unexpected channel count leaves the array 3-D and triggers the error); on
every reducible input it returns a result instead. -/
theorem shape_error_iff (a : NDArray) (hwf : a.wf) (hpos : ∀ d ∈ a.shape, 0 < d) :
    (reducibleShape a.shape = true → ∃ r, preprocess_image_from_array a = .ok r) ∧
    (reducibleShape a.shape = false →
      preprocess_image_from_array a = .error .shapeError) := by
  obtain ⟨sh, data⟩ := a
  rw [NDArray.wf] at hwf
  rcases sh with _ | ⟨d0, _ | ⟨d1, _ | ⟨d2, _ | ⟨d3, _ | ⟨d4, rest⟩⟩⟩⟩⟩
  · exact ⟨fun h => by simp [reducibleShape] at h,
      fun _ => preprocess_other_len [] data (by simp) (by simp) (by simp)⟩
  · exact ⟨fun h => by simp [reducibleShape] at h,
      fun _ => preprocess_other_len [d0] data (by simp) (by simp) (by simp)⟩
  · exact ⟨fun _ => preprocess2d_ok d0 d1 data (by simpa using hwf),
      fun h => by simp [reducibleShape] at h⟩
  · exact preprocess3d_cases d0 d1 d2 data hwf
  · have hb : (0 : ℕ) < d0 := hpos d0 (by simp)
    have hple : ([d1, d2, d3] : List ℕ).prod ≤ data.length := by
      rw [hwf, List.prod_cons]
      exact Nat.le_mul_of_pos_left _ hb
    have htk : (data.take (d1 * (d2 * (d3 * 1)))).length =
        ([d1, d2, d3] : List ℕ).prod := by
      rw [List.length_take]
      exact Nat.min_eq_left hple
    rw [show reducibleShape [d0, d1, d2, d3] = (d3 == 1 || d3 == 3) from rfl,
      preprocess_batch d0 d1 d2 d3 data]
    exact preprocess3d_cases d1 d2 d3 _ htk
  · refine ⟨fun h => ?_, fun _ => preprocess_other_len _ data ?_ ?_ ?_⟩
    · rw [show reducibleShape (d0 :: d1 :: d2 :: d3 :: d4 :: rest) = false from rfl] at h
      cases h
    · simp only [List.length_cons]; omega
    · simp only [List.length_cons]; omega
    · simp only [List.length_cons]; omega

/-- Witness for C8: the reducible 2×2 array (resized, succeeds) and, for the
irreducible side, see the same theorem applied to a 3-D array with channel
count 2 inside this witness. -/
theorem shape_error_iff_witness :
    ((⟨[2, 2], [1, 2, 3, 4]⟩ : NDArray).wf ∧
      (∀ d ∈ (⟨[2, 2], [1, 2, 3, 4]⟩ : NDArray).shape, 0 < d) ∧
      (reducibleShape [2, 2] = true →
        ∃ r, preprocess_image_from_array ⟨[2, 2], [1, 2, 3, 4]⟩ = .ok r)) ∧
    ((⟨[2, 2, 2], [1, 2, 3, 4, 5, 6, 7, 8]⟩ : NDArray).wf ∧
      (∀ d ∈ (⟨[2, 2, 2], [1, 2, 3, 4, 5, 6, 7, 8]⟩ : NDArray).shape, 0 < d) ∧
      (reducibleShape [2, 2, 2] = false →
        preprocess_image_from_array ⟨[2, 2, 2], [1, 2, 3, 4, 5, 6, 7, 8]⟩ =
          .error .shapeError)) :=
  ⟨⟨rfl, by decide,
    (shape_error_iff ⟨[2, 2], [1, 2, 3, 4]⟩ rfl (by decide)).1⟩,
   ⟨rfl, by decide,
    (shape_error_iff ⟨[2, 2, 2], [1, 2, 3, 4, 5, 6, 7, 8]⟩ rfl (by decide)).2⟩⟩

/-- C10: a 4-D `(batch, height, width, channels)` input is processed using
only its first batch entry: the result equals normalizing the first slice,
and any two 4-D arrays of the same shape with the same first slice produce
the same result (the remaining batch entries have no effect). The positivity
hypothesis mirrors `image_array[0]`, which requires a nonempty batch. -/
theorem batch_uses_first_entry_only (a : NDArray) (h4 : a.shape.length = 4)
    (_hb : 0 < a.shape.getD 0 0) :
    preprocess_image_from_array a = preprocess_image_from_array (batchFirst a) ∧
    (∀ b : NDArray, b.shape = a.shape → batchFirst b = batchFirst a →
      preprocess_image_from_array b = preprocess_image_from_array a) := by
  have key : ∀ c : NDArray, c.shape.length = 4 →
      preprocess_image_from_array c = preprocess_image_from_array (batchFirst c) := by
    intro c hc
    simp only [preprocess_image_from_array]
    rw [if_pos hc, if_neg (show ¬((batchFirst c).shape.length = 4) by
      simp [batchFirst, hc])]
  refine ⟨key a h4, fun b hbs hbf => ?_⟩
  rw [key b (by rw [hbs]; exact h4), hbf, ← key a h4]

/-- Witness for C10: a batch of two 1×1×1 images; only the first is used. -/
theorem batch_uses_first_entry_only_witness :
    ((⟨[2, 1, 1, 1], [5, 9]⟩ : NDArray).shape.length = 4 ∧
      0 < (⟨[2, 1, 1, 1], [5, 9]⟩ : NDArray).shape.getD 0 0) ∧
    preprocess_image_from_array ⟨[2, 1, 1, 1], [5, 9]⟩ =
      preprocess_image_from_array (batchFirst ⟨[2, 1, 1, 1], [5, 9]⟩) :=
  ⟨⟨rfl, by decide⟩,
    (batch_uses_first_entry_only ⟨[2, 1, 1, 1], [5, 9]⟩ rfl (by decide)).1⟩

lemma reshape4_shape (d : List ℚ) (r : NDArray) :
    reshape4 d = .ok r → r.shape = [1, 28, 28, 1] := by
  unfold reshape4
  split
  · intro h
    cases h
    rfl
  · intro h
    cases h

lemma preprocess_ok_shape : ∀ (a : NDArray) (r : NDArray),
    preprocess_image_from_array a = .ok r → r.shape = [1, 28, 28, 1] := by
  have h2d : ∀ (h w : ℕ) (d : List ℚ) (r : NDArray),
      preprocess_image_from_array ⟨[h, w], d⟩ = .ok r → r.shape = [1, 28, 28, 1] := by
    intro h w d r
    rw [preprocess_2d_eq]
    intro hh
    exact reshape4_shape _ _ hh
  intro a r
  obtain ⟨sh, data⟩ := a
  rcases sh with _ | ⟨d0, _ | ⟨d1, _ | ⟨d2, _ | ⟨d3, _ | ⟨d4, rest⟩⟩⟩⟩⟩
  · rw [preprocess_other_len [] data (by simp) (by simp) (by simp)]
    intro h
    exact Except.noConfusion h
  · rw [preprocess_other_len [d0] data (by simp) (by simp) (by simp)]
    intro h
    exact Except.noConfusion h
  · exact h2d d0 d1 data r
  · by_cases h1 : d2 = 1
    · subst h1
      rw [preprocess_squeeze]
      exact h2d _ _ _ r
    · by_cases h3 : d2 = 3
      · subst h3
        rw [preprocess_luma]
        exact h2d _ _ _ r
      · rw [preprocess_3d_badchannel _ _ _ _ h1 h3]
        intro h
        exact Except.noConfusion h
  · rw [preprocess_batch]
    by_cases h1 : d3 = 1
    · subst h1
      rw [preprocess_squeeze]
      exact h2d _ _ _ r
    · by_cases h3 : d3 = 3
      · subst h3
        rw [preprocess_luma]
        exact h2d _ _ _ r
      · rw [preprocess_3d_badchannel _ _ _ _ h1 h3]
        intro h
        exact Except.noConfusion h
  · rw [preprocess_other_len _ data (by simp only [List.length_cons]; omega)
      (by simp only [List.length_cons]; omega) (by simp only [List.length_cons]; omega)]
    intro h
    exact Except.noConfusion h

set_option maxRecDepth 10000 in
/-- C2: every input accepted by the normalization pipeline — decoded image
bytes (and therefore base64 input, which delegates to the bytes path after
decoding), numeric arrays, and stroke drawings — produces an output of shape
exactly `(1, 28, 28, 1)`. -/
theorem normalizer_output_shape :
    (∀ img : GrayImage, preprocess_image_from_bytes img =
      .ok ⟨[1, 28, 28, 1],
        (resize28 img.height img.width img.pix).map
          (fun (p : ℕ) => (p : ℚ) / 255)⟩) ∧
    (∀ (a : NDArray) (r : NDArray),
      preprocess_image_from_array a = .ok r → r.shape = [1, 28, 28, 1]) ∧
    (∀ (strokes : List (List (ℚ × ℚ))) (canvas_size : ℕ),
      preprocess_stroke_data strokes canvas_size =
        .ok ⟨[1, 28, 28, 1],
          (resize28 canvas_size canvas_size (drawStrokes canvas_size strokes)).map
            (fun (p : ℕ) => (p : ℚ) / 255)⟩) := by
  refine ⟨?_, ?_, ?_⟩
  · intro img
    unfold preprocess_image_from_bytes
    exact reshape4_ok _ (by rw [List.length_map]; simp [resize28])
  · exact preprocess_ok_shape
  · intro strokes canvas_size
    unfold preprocess_stroke_data
    exact reshape4_ok _ (by rw [List.length_map]; simp [resize28])

set_option maxRecDepth 10000 in
/-- Witness for C2: a concrete 5×7 gray image, a concrete 28×28 array, and
the empty drawing. -/
theorem normalizer_output_shape_witness :
    (preprocess_image_from_bytes ⟨5, 7, fun _ _ => 9⟩ =
      .ok ⟨[1, 28, 28, 1],
        (resize28 5 7 (fun _ _ => 9)).map (fun (p : ℕ) => (p : ℚ) / 255)⟩) ∧
    (preprocess_image_from_array ⟨[28, 28], List.replicate 784 2⟩ =
        .ok ⟨[1, 28, 28, 1], List.replicate 784 ((2 : ℚ) / 255)⟩ ∧
      (⟨[1, 28, 28, 1], List.replicate 784 ((2 : ℚ) / 255)⟩ : NDArray).shape =
        [1, 28, 28, 1]) ∧
    (preprocess_stroke_data [] 256 =
      .ok ⟨[1, 28, 28, 1],
        (resize28 256 256 (drawStrokes 256 [])).map
          (fun (p : ℕ) => (p : ℚ) / 255)⟩) := by
  have harr : preprocess_image_from_array ⟨[28, 28], List.replicate 784 2⟩ =
      .ok ⟨[1, 28, 28, 1], List.replicate 784 ((2 : ℚ) / 255)⟩ := by
    have hmax : listMax (List.replicate 784 (2 : ℚ)) = 2 :=
      listMax_replicate 784 2 (by norm_num)
    simp only [preprocess_image_from_array, reshape4]
    norm_num [hmax, List.map_replicate]
  exact ⟨normalizer_output_shape.1 ⟨5, 7, fun _ _ => 9⟩,
    ⟨harr, normalizer_output_shape.2.1 _ _ harr⟩,
    normalizer_output_shape.2.2 [] 256⟩

/-- Witness for C1 (amended): the vector `[1/10, 7/10, 1/5]` with `K = 2`,
instantiating the length conjunct and the dominance conjunct at the selected
index 1 against the unselected index 0. -/
theorem ranking_sorted_desc_witness :
    (rankResults [mkRat 1 10, mkRat 7 10, mkRat 1 5] ((2 : ℕ) : ℤ)).length =
      min 2 ([mkRat 1 10, mkRat 7 10, mkRat 1 5] : List ℚ).length ∧
    (1 ∈ topIndices [mkRat 1 10, mkRat 7 10, mkRat 1 5] ((2 : ℕ) : ℤ) ∧
      0 < ([mkRat 1 10, mkRat 7 10, mkRat 1 5] : List ℚ).length ∧
      0 ∉ topIndices [mkRat 1 10, mkRat 7 10, mkRat 1 5] ((2 : ℕ) : ℤ) ∧
      keyLe [mkRat 1 10, mkRat 7 10, mkRat 1 5] 0 1) :=
  ⟨(ranking_sorted_desc [mkRat 1 10, mkRat 7 10, mkRat 1 5] 2).1,
   ⟨by decide, by decide, by decide,
    (ranking_sorted_desc [mkRat 1 10, mkRat 7 10, mkRat 1 5] 2).2.2.2.2.1
      1 (by decide) 0 (by decide) (by decide)⟩⟩

end SketchVR
